import Mathlib

/-!
Verification of the canonical-JSON / hashing / Ed25519 core of the
accumulate SDK (Python sources under `src/src/accumulate_client/`).

The embedding follows the Python source:
* `canonjson.py` (`_canonicalize`, `dumps_canonical`),
* `protocol/hashing.py` (`sha256_json`, `hash_transaction_body`,
  `hash_transaction`, `hash_for_ed25519_signing`, ...),
* `crypto/ed25519.py` (`Ed25519KeyPair.from_seed_or_key`,
  `public_key_bytes`, `verify`, `derive_lite_identity_url`,
  `Ed25519Signature.verify_signature`).

External primitives are modelled as follows:
* SHA-256 (`hashlib.sha256(...).digest()`) is an explicit function
  parameter `sha256` of type `Bytes → Bytes`; every property proved here
  holds for an arbitrary digest function, and witnesses instantiate it
  with a concrete function.
* The Ed25519 curve operations of PyNaCl / `cryptography` (seed-to-public
  derivation, raw signing, raw verification) are explicit function
  parameters (`pubOf`, `edSign`, `cryptoVerify`).  `cryptography`'s
  `Ed25519PublicKey.verify` raises `InvalidSignature` exactly when the
  check fails, which the caller turns into a boolean, so it is modelled
  as a `Bool`-valued function.
* IEEE-754 floats are carried by their Python `repr` string (shortest
  round-trip rendering); `json.dumps` emits exactly that string, and two
  floats are structurally equal iff their reprs agree.  Floating-point
  arithmetic itself is never performed by the code under study.
-/

namespace AccumulateSDK

/-- Byte strings (Python `bytes`): lists of naturals, each `< 256` where
it matters. -/
abbrev Bytes := List Nat

/-- A Python dict key as used by the SDK: either a string or an int.
(Python allows further hashable keys; the source only ever stringifies
them with `str`, and the claims only exercise string and int keys.) -/
inductive PyKey where
  | kStr : String → PyKey
  | kInt : Int → PyKey
  deriving DecidableEq, Repr

/-- Python `str()` of a dict key: a string renders as itself, an int in
decimal (matching Lean's `toString` on `Int`). -/
def pyStr : PyKey → String
  | .kStr s => s
  | .kInt n => toString n

/-- The universe of Python values reaching `canonjson._canonicalize`:
JSON scalars, `bytes`, lists/tuples, dicts, and arbitrary other objects
(`other s` stands for a non-JSON object whose `str()` is `s`). -/
inductive PyVal where
  | null : PyVal
  | bool : Bool → PyVal
  | int : Int → PyVal
  | float : String → PyVal
  | str : String → PyVal
  | bytes : Bytes → PyVal
  | arr : List PyVal → PyVal
  | obj : List (PyKey × PyVal) → PyVal
  | other : String → PyVal

/-- Result of `_canonicalize`: ready for `json.dumps` — keys are strings,
`bytes` have become base64 strings, unknown objects have been
stringified. -/
inductive CanonVal where
  | null : CanonVal
  | bool : Bool → CanonVal
  | int : Int → CanonVal
  | float : String → CanonVal
  | str : String → CanonVal
  | arr : List CanonVal → CanonVal
  | obj : List (String × CanonVal) → CanonVal

/-- First-match association lookup, as in a Python dict built without
duplicate keys. -/
def findVal {β : Type} : List (PyKey × β) → PyKey → Option β
  | [], _ => none
  | p :: rest, k => if p.1 = k then some p.2 else findVal rest k

/-- Lexicographic (non-strict) comparison of character sequences by
Unicode code point: Python's `<=` on `str`. -/
def charsLe : List Char → List Char → Bool
  | [], _ => true
  | _ :: _, [] => false
  | a :: as, b :: bs =>
      if a.toNat < b.toNat then true
      else if b.toNat < a.toNat then false
      else charsLe as bs

/-- Lexicographic strict comparison of character sequences by Unicode
code point: Python's `<` on `str`. -/
def charsLt : List Char → List Char → Bool
  | _, [] => false
  | [], _ :: _ => true
  | a :: as, b :: bs =>
      if a.toNat < b.toNat then true
      else if b.toNat < a.toNat then false
      else charsLt as bs

/-- Comparison used by `sorted(keys, key=lambda k: str(k))`: Python compares the
`str()` images lexicographically by Unicode code point. -/
def keyLe (a b : PyKey) : Prop := charsLe (pyStr a).toList (pyStr b).toList = true

instance : DecidableRel keyLe := fun a b =>
  instDecidableEqBool (charsLe (pyStr a).toList (pyStr b).toList) true

/-- Model of the `OrderedDict` assignment `od[str(k)] = v`: overwrite in place when the
key is already present, else append at the end. -/
def odInsert : List (String × CanonVal) → String → CanonVal → List (String × CanonVal)
  | [], k, v => [(k, v)]
  | p :: rest, k, v => if p.1 = k then (k, v) :: rest else p :: odInsert rest k v

/-- The dict branch of `_canonicalize`, after the values have been
canonicalized: sort the keys by `str(k)` (Python `sorted` is stable; so
is `List.insertionSort` with this orientation, hence they agree as
functions), then assign `od[str(k)] = canonicalized value` in order. -/
def canonObjPairs (pairs : List (PyKey × CanonVal)) : List (String × CanonVal) :=
  let sortedKeys := List.insertionSort keyLe (pairs.map Prod.fst)
  sortedKeys.foldl (fun acc k => odInsert acc (pyStr k) ((findVal pairs k).getD CanonVal.null)) []

/-- The base64 alphabet (RFC 4648). -/
def b64Char (n : Nat) : Char :=
  "ABCDEFGHIJKLMNOPQRSTUVWXYZabcdefghijklmnopqrstuvwxyz0123456789+/".toList.getD n 'A'

/-- Standard padded base64 of a byte string (`base64.b64encode`). -/
def base64Encode : Bytes → String
  | a :: b :: c :: rest =>
      String.mk [b64Char (a / 4), b64Char (a % 4 * 16 + b / 16),
        b64Char (b % 16 * 4 + c / 64), b64Char (c % 64)] ++ base64Encode rest
  | [a, b] => String.mk [b64Char (a / 4), b64Char (a % 4 * 16 + b / 16), b64Char (b % 16 * 4), '=']
  | [a] => String.mk [b64Char (a / 4), b64Char (a % 4 * 16), '=', '=']
  | [] => ""

mutual

/-- Model of `canonjson._canonicalize`, mutually with its action on list elements
and on dict entries.  The fallback case (`other`) mirrors the source's
`return str(value)`. -/
def canonicalize : PyVal → CanonVal
  | .null => .null
  | .bool b => .bool b
  | .int n => .int n
  | .float r => .float r
  | .str s => .str s
  | .bytes bs => .str (base64Encode bs)
  | .arr xs => .arr (canonList xs)
  | .obj kvs => .obj (canonObjPairs (canonPairs kvs))
  | .other s => .str s

def canonList : List PyVal → List CanonVal
  | [] => []
  | v :: rest => canonicalize v :: canonList rest

def canonPairs : List (PyKey × PyVal) → List (PyKey × CanonVal)
  | [] => []
  | (k, v) :: rest => (k, canonicalize v) :: canonPairs rest

end

/-- Lowercase hex digits. -/
def hexDigit (n : Nat) : Char := "0123456789abcdef".toList.getD n '0'

/-- One character of a JSON string under Python's `json.dumps` with
`ensure_ascii=False`: escape the quote, the backslash and control
characters (with the usual two-character shortcuts), leave everything
else unchanged. -/
def escapeChar (c : Char) : List Char :=
  if c = '"' then ['\\', '"']
  else if c = '\\' then ['\\', '\\']
  else if c = '\n' then ['\\', 'n']
  else if c = '\r' then ['\\', 'r']
  else if c = '\t' then ['\\', 't']
  else if c.toNat = 8 then ['\\', 'b']
  else if c.toNat = 12 then ['\\', 'f']
  else if c.toNat < 32 then
    ['\\', 'u', hexDigit (c.toNat / 4096), hexDigit (c.toNat / 256 % 16),
      hexDigit (c.toNat / 16 % 16), hexDigit (c.toNat % 16)]
  else [c]

/-- A JSON string literal for `s`. -/
def jsonQuote (s : String) : String :=
  "\"" ++ String.mk (s.toList.map escapeChar).flatten ++ "\""

mutual

/-- Model of `json.dumps(..., separators=(',', ':'), ensure_ascii=False,
sort_keys=False)` on an already-canonicalized value. -/
def render : CanonVal → String
  | .null => "null"
  | .bool b => if b then "true" else "false"
  | .int n => toString n
  | .float r => r
  | .str s => jsonQuote s
  | .arr xs => "[" ++ renderList xs ++ "]"
  | .obj kvs => "\x7b" ++ renderPairs kvs ++ "\x7d"

def renderList : List CanonVal → String
  | [] => ""
  | [v] => render v
  | v :: rest => render v ++ "," ++ renderList rest

def renderPairs : List (String × CanonVal) → String
  | [] => ""
  | [(k, v)] => jsonQuote k ++ ":" ++ render v
  | (k, v) :: rest => jsonQuote k ++ ":" ++ render v ++ "," ++ renderPairs rest

end

/-- Model of `canonjson.dumps_canonical`: canonicalize, then serialize. -/
def dumps_canonical (v : PyVal) : String := render (canonicalize v)

/-! ## `protocol/hashing.py` -/

/-- A Python dict as passed to the hashing functions. -/
abbrev PyDict := List (PyKey × PyVal)

/-- UTF-8 encoding of a string (`str.encode('utf-8')`). -/
def utf8Bytes (s : String) : Bytes := s.toUTF8.toList.map (fun b => b.toNat)

section Hashing

variable (sha256 : Bytes → Bytes)

/-- Model of `hashing.sha256_json`: SHA-256 of the canonical JSON, UTF-8 encoded.
(`sha256_bytes` in the source is bare `hashlib.sha256(...).digest()`,
i.e. the `sha256` parameter itself.) -/
def sha256_json (obj : PyVal) : Bytes := sha256 (utf8Bytes (dumps_canonical obj))

/-- Model of `hashing.hash_transaction_header`. -/
def hash_transaction_header (header : PyDict) : Bytes := sha256_json sha256 (.obj header)

/-- The four payload-carrying body kinds of `hash_transaction_body`. -/
def write_data_types : List String :=
  ["WriteData", "WriteDataTo", "SyntheticWriteData", "SystemWriteData"]

/-- Python truthiness (`bool(v)`).  A float is falsy iff it is a zero;
with floats carried by their repr that means "0.0" or "-0.0".  Objects
without `__bool__`/`__len__` are truthy. -/
def pyTruthy : PyVal → Bool
  | .null => false
  | .bool b => b
  | .int n => n != 0
  | .float r => !(r == "0.0" || r == "-0.0")
  | .str s => !s.isEmpty
  | .bytes bs => !bs.isEmpty
  | .arr xs => !xs.isEmpty
  | .obj kvs => !kvs.isEmpty
  | .other _ => true

/-- Does `hay` start with `needle`? -/
def startsWithChars : List Char → List Char → Bool
  | [], _ => true
  | _ :: _, [] => false
  | a :: as, b :: bs => a == b && startsWithChars as bs

/-- Substring test (Python `needle in hay` on strings). -/
def containsChars (needle : List Char) : List Char → Bool
  | [] => needle.isEmpty
  | c :: rest => startsWithChars needle (c :: rest) || containsChars needle rest

/-- Python `'data' in entry` for the possible entry values: key lookup for
dicts, substring test for strings, elementwise `==` for lists (a string
only ever equals a string), `TypeError` otherwise. -/
def pyContainsStr : PyVal → String → Except String Bool
  | .obj kvs, k => .ok (kvs.any (fun p => decide (p.1 = PyKey.kStr k)))
  | .str s, k => .ok (containsChars k.toList s.toList)
  | .arr xs, k => .ok (xs.any (fun v => match v with | .str s => decide (s = k) | _ => false))
  | _, _ => .error "TypeError: argument is not a container"

/-- Model of `body.copy()` followed by `del copy[k]`: drop the entry with key `k`
(a Python dict holds at most one). -/
def eraseKey : PyDict → PyKey → PyDict
  | [], _ => []
  | p :: rest, k => if p.1 = k then rest else p :: eraseKey rest k

/-- Model of `hashing.hash_transaction_body`.  Here `body.get('type', '')` defaults to
the empty string.  `write_data_types` in the source is a Python *set*, so
the membership probe `transaction_type in write_data_types` first hashes
the probe: an unhashable `type` value (a list or a dict) raises
`TypeError` at that point; every hashable non-string value (None, bool,
int, float, bytes, arbitrary object) is never equal to a string and
takes the flat branch, as does any string outside the four kinds. -/
def hash_transaction_body (body : PyDict) : Except String Bytes :=
  let transaction_type := (findVal body (PyKey.kStr "type")).getD (PyVal.str "")
  match transaction_type with
  | .arr _ => .error "TypeError: unhashable type: 'list'"
  | .obj _ => .error "TypeError: unhashable type: 'dict'"
  | .str ty =>
    if write_data_types.contains ty then
      match findVal body (PyKey.kStr "entry") with
      | none => .error ("invalid " ++ ty ++ ": missing entry")
      | some entry =>
        if !pyTruthy entry then .error ("invalid " ++ ty ++ ": missing entry data")
        else match pyContainsStr entry "data" with
          | .error e => .error e
          | .ok false => .error ("invalid " ++ ty ++ ": missing entry data")
          | .ok true =>
            let body_copy := eraseKey body (PyKey.kStr "entry")
            .ok (sha256 (sha256_json sha256 (.obj body_copy) ++ sha256_json sha256 entry))
    else .ok (sha256_json sha256 (.obj body))
  | _ => .ok (sha256_json sha256 (.obj body))

/-- A heap of Python dict objects: cell 0 is the caller's `body`;
`body.copy()` allocates a fresh cell. -/
structure DictHeap where
  cells : List PyDict

/-- Read the dict at address `a`. -/
def heapGet (h : DictHeap) (a : Nat) : PyDict := h.cells.getD a []

/-- Overwrite the dict at address `a` (in-place mutation). -/
def heapSet (h : DictHeap) (a : Nat) (d : PyDict) : DictHeap := ⟨h.cells.set a d⟩

/-- Allocate a fresh dict, returning its address. -/
def heapAlloc (h : DictHeap) (d : PyDict) : DictHeap × Nat := (⟨h.cells ++ [d]⟩, h.cells.length)

/-- Model of `hash_transaction_body` with dict mutation made explicit: the caller's
`body` lives at address `body`; `body_copy = body.copy()` allocates a new
cell, and `del body_copy['entry']` mutates only that new cell.  Returns
the result together with the final heap. -/
def hash_transaction_body_heap (h : DictHeap) (body : Nat) :
    Except String Bytes × DictHeap :=
  let bodyD := heapGet h body
  let transaction_type := (findVal bodyD (PyKey.kStr "type")).getD (PyVal.str "")
  match transaction_type with
  | .arr _ => (.error "TypeError: unhashable type: 'list'", h)
  | .obj _ => (.error "TypeError: unhashable type: 'dict'", h)
  | .str ty =>
    if write_data_types.contains ty then
      match findVal bodyD (PyKey.kStr "entry") with
      | none => (.error ("invalid " ++ ty ++ ": missing entry"), h)
      | some entry =>
        if !pyTruthy entry then (.error ("invalid " ++ ty ++ ": missing entry data"), h)
        else match pyContainsStr entry "data" with
          | .error e => (.error e, h)
          | .ok false => (.error ("invalid " ++ ty ++ ": missing entry data"), h)
          | .ok true =>
            let alloc := heapAlloc h (heapGet h body)
            let h1 := alloc.1
            let body_copy := alloc.2
            let h2 := heapSet h1 body_copy (eraseKey (heapGet h1 body_copy) (PyKey.kStr "entry"))
            (.ok (sha256 (sha256_json sha256 (.obj (heapGet h2 body_copy)) ++
              sha256_json sha256 entry)), h2)
    else (.ok (sha256_json sha256 (.obj bodyD)), h)
  | _ => (.ok (sha256_json sha256 (.obj bodyD)), h)

/-- Model of `hashing.hash_transaction`: require `header` and `body` keys, then
hash the whole object as one canonical document (flat strategy). -/
def hash_transaction (transaction : PyDict) : Except String Bytes :=
  if (findVal transaction (PyKey.kStr "header")).isNone then
    .error "invalid transaction: missing header"
  else if (findVal transaction (PyKey.kStr "body")).isNone then
    .error "invalid transaction: missing body"
  else .ok (sha256_json sha256 (.obj transaction))

/-- Model of `hashing.create_signature_metadata_hash`. -/
def create_signature_metadata_hash (signature_metadata : PyDict) : Bytes :=
  sha256_json sha256 (.obj signature_metadata)

/-- Model of `hashing.hash_for_ed25519_signing`: `sha256(sigMdHash ++ txHash)`. -/
def hash_for_ed25519_signing (signature_metadata transaction : PyDict) :
    Except String Bytes :=
  let sig_md_hash := create_signature_metadata_hash sha256 signature_metadata
  match hash_transaction sha256 transaction with
  | .error e => .error e
  | .ok tx_hash => .ok (sha256 (sig_md_hash ++ tx_hash))

end Hashing

/-! ## `crypto/ed25519.py` -/

/-- An argument that Python accepts as `bytes` or `str`. -/
inductive BytesOrStr where
  | bytes : Bytes → BytesOrStr
  | str : String → BytesOrStr

/-- The value of a hex digit character, if any. -/
def hexVal (c : Char) : Option Nat :=
  if 48 ≤ c.toNat ∧ c.toNat ≤ 57 then some (c.toNat - 48)
  else if 97 ≤ c.toNat ∧ c.toNat ≤ 102 then some (c.toNat - 87)
  else if 65 ≤ c.toNat ∧ c.toNat ≤ 70 then some (c.toNat - 55)
  else none

/-- Model of `bytes.fromhex`: pairs of hex digits; anything else raises
`ValueError`.  (CPython additionally skips ASCII whitespace between
pairs; no code path under study passes strings with spaces.) -/
def fromhex : List Char → Except String Bytes
  | [] => .ok []
  | [_] => .error "ValueError: non-hexadecimal number found in fromhex() arg"
  | c1 :: c2 :: rest =>
    match hexVal c1, hexVal c2 with
    | some hi, some lo => (fromhex rest).map (fun bs => (16 * hi + lo) :: bs)
    | _, _ => .error "ValueError: non-hexadecimal number found in fromhex() arg"

/-- Decode a bytes-or-hex-string argument (`if isinstance(x, str):
x = bytes.fromhex(x)`). -/
def decodeHexArg : BytesOrStr → Except String Bytes
  | .bytes b => .ok b
  | .str s => fromhex s.toList

/-- Decode a message argument (`if isinstance(m, str):
m = m.encode('utf-8')`). -/
def msgBytes : BytesOrStr → Bytes
  | .bytes b => b
  | .str s => utf8Bytes s

/-- State of `Ed25519KeyPair` after `__init__` on the PyNaCl path: the
NaCl signing key (a 32-byte seed) and the verify key. -/
structure Ed25519KeyPair where
  signingSeed : Bytes
  verifyKey : Bytes

section Ed25519

-- `pubOf` models `nacl.signing.SigningKey(seed).verify_key`: standard
-- Ed25519 seed-to-public derivation (curve arithmetic).
-- `cryptoVerify` models `cryptography`'s raw Ed25519 check on
-- (public key, message, signature); `Ed25519PublicKey.verify` raises
-- `InvalidSignature` exactly when it is false.
-- `edSign` models raw Ed25519 signing with the private key built from a
-- 32-byte seed (`Ed25519PrivateKey.from_private_bytes(seed).sign`).
variable (pubOf : Bytes → Bytes)
variable (cryptoVerify : Bytes → Bytes → Bytes → Bool)
variable (edSign : Bytes → Bytes → Bytes)
variable (sha256 : Bytes → Bytes)

/-- Model of `Ed25519KeyPair.from_seed_or_key`, PyNaCl path (the branch the claims
cite); bytes input.  64 bytes: `SigningKey(seed_or_key[:32])` with
`VerifyKey(seed_or_key[32:])` — the nacl secret-key layout
seed(32) ‖ public(32).  32 bytes: seed with derived public key.  Other
lengths: `ValueError` reporting the length. -/
def from_seed_or_key (seed_or_key : Bytes) : Except String Ed25519KeyPair :=
  if seed_or_key.length = 64 then
    .ok ⟨seed_or_key.take 32, seed_or_key.drop 32⟩
  else if seed_or_key.length = 32 then
    .ok ⟨seed_or_key, pubOf seed_or_key⟩
  else .error ("Expected 64 or 32 bytes, got " ++ toString seed_or_key.length)

/-- Model of `Ed25519KeyPair.public_key_bytes`: `bytes(self._verify_key.encode())`. -/
def public_key_bytes (kp : Ed25519KeyPair) : Bytes := kp.verifyKey

/-- Model of `Ed25519KeyPair.sign`: pure Ed25519 with `self._private_key`, which
`__init__` builds from the seed (`bytes(signing_key)`). -/
def keypair_sign (kp : Ed25519KeyPair) (message : BytesOrStr) : Bytes :=
  edSign kp.signingSeed (msgBytes message)

/-- Model of `Ed25519KeyPair.verify`: hex-decode a string signature (before the
`try` block, so a malformed hex string raises), then
`self._public_key.verify(sig, msg)` with `InvalidSignature` caught and
returned as `False`.  `_public_key` is derived from the stored seed
(`__init__`), not from the stored verify key. -/
def keypair_verify (kp : Ed25519KeyPair) (message signature : BytesOrStr) :
    Except String Bool :=
  let msg := msgBytes message
  match (match signature with | .bytes b => Except.ok b | .str s => fromhex s.toList) with
  | .error e => .error e
  | .ok sig => .ok (cryptoVerify (pubOf kp.signingSeed) msg sig)

/-- Model of `Ed25519Signature.verify_signature` (stateless): hex decodes happen
before the `try` block; inside it, `from_public_bytes` raises
`ValueError` unless the key is exactly 32 bytes, and both that and
`InvalidSignature` are caught and returned as `False`. -/
def verify_signature (public_key message signature : BytesOrStr) :
    Except String Bool :=
  match decodeHexArg public_key with
  | .error e => .error e
  | .ok pk =>
    let msg := msgBytes message
    match decodeHexArg signature with
    | .error e => .error e
    | .ok sig => .ok (if pk.length = 32 then cryptoVerify pk msg sig else false)

/-- Model of `bytes.hex()`: two lowercase hex digits per byte. -/
def bytesToHex (bs : Bytes) : String :=
  String.mk (bs.map (fun b => [hexDigit (b / 16), hexDigit (b % 16)])).flatten

/-- Model of `Ed25519KeyPair.derive_lite_identity_url`:
`acc://` ++ hex of the first 20 bytes of `sha256(publicKey)` ++ hex of
the last 4 bytes of `sha256(utf8(hexKey))` — the checksum is computed
over the hex *string*, not the raw truncated hash. -/
def derive_lite_identity_url (kp : Ed25519KeyPair) : String :=
  let public_key := public_key_bytes kp
  let key_hash_full := sha256 public_key
  let key_hash_20 := key_hash_full.take 20
  let key_str := bytesToHex key_hash_20
  let checksum_full := sha256 (utf8Bytes key_str)
  let checksum := bytesToHex (checksum_full.drop 28)
  "acc://" ++ key_str ++ checksum

/-- Model of `Ed25519KeyPair.derive_lite_token_account_url`: LID ++ "/ACME". -/
def derive_lite_token_account_url (kp : Ed25519KeyPair) : String :=
  derive_lite_identity_url sha256 kp ++ "/ACME"

end Ed25519

/-! ## Helper functions for statements -/

/-- The string keys of a canonicalized object. -/
def objKeys : CanonVal → List String
  | .obj kvs => kvs.map Prod.fst
  | _ => []

/-- Strict lexicographic order on strings by Unicode code point. -/
def strLt (s t : String) : Prop := charsLt s.toList t.toList = true

/-- A lowercase hex digit character. -/
def isHexChar (c : Char) : Bool := "0123456789abcdef".toList.contains c

/-! ## Claims about `crypto/ed25519.py`: C1 -/

/-- C1, counterexample: for the 64-byte input `0^32 ‖ 1^32`,
`from_seed_or_key` succeeds but `public_key_bytes` of the result is the
*last* 32 bytes, not the first 32 as the claim states. -/
theorem C1_counterexample :
    from_seed_or_key (fun _ => List.replicate 32 0)
        (List.replicate 32 0 ++ List.replicate 32 1) =
      Except.ok ⟨List.replicate 32 0, List.replicate 32 1⟩ ∧
    public_key_bytes ⟨List.replicate 32 0, List.replicate 32 1⟩ ≠
      (List.replicate 32 0 ++ List.replicate 32 1).take 32 := by
  constructor
  · rfl
  · decide

/-- C1, amended: for every 64-byte input `b`, `from_seed_or_key`
interprets `b` as `seed(32) ‖ public(32)`: the *last* 32 bytes are the
pre-derived public key (`public_key_bytes` of the resulting key pair
equals `b[32:64]`) and the *first* 32 bytes are the secret seed used for
signing. -/
theorem C1_amended (pubOf : Bytes → Bytes) (edSign : Bytes → Bytes → Bytes)
    (b : Bytes) (hb : b.length = 64) :
    from_seed_or_key pubOf b = Except.ok ⟨b.take 32, b.drop 32⟩ ∧
    public_key_bytes ⟨b.take 32, b.drop 32⟩ = b.drop 32 ∧
    (∀ message, keypair_sign edSign ⟨b.take 32, b.drop 32⟩ message =
      edSign (b.take 32) (msgBytes message)) := by
  refine ⟨?_, rfl, fun _ => rfl⟩
  unfold from_seed_or_key
  rw [if_pos hb]

/-- C1, witness for the amended theorem at the 64-byte input `9^64`. -/
theorem C1_amended_witness :
    from_seed_or_key (fun _ => []) (List.replicate 64 9) =
      Except.ok ⟨(List.replicate 64 9 : Bytes).take 32, (List.replicate 64 9 : Bytes).drop 32⟩ :=
  (C1_amended (fun _ => []) (fun _ _ => []) (List.replicate 64 9) rfl).1

/-! ## Claims about `canonjson.py`: C4, C10 -/

/-- C4, counterexample: a value outside the closed Value variant is
*not* rejected — `_canonicalize` silently converts it with `str` and the
encoder emits it as a JSON string. -/
theorem C4_counterexample :
    canonicalize (.other "not-a-json-value") = CanonVal.str "not-a-json-value" ∧
    dumps_canonical (.other "not-a-json-value") = "\"not-a-json-value\"" :=
  ⟨rfl, rfl⟩

/-- C4, amended: for every input value outside the closed Value variant,
`canonicalize` silently converts it to its string representation
(`str(value)`) and `dumps_canonical` renders that as a JSON string; no
encoding error is raised. -/
theorem C4_amended (s : String) :
    canonicalize (.other s) = CanonVal.str s ∧
    dumps_canonical (.other s) = render (CanonVal.str s) :=
  ⟨rfl, rfl⟩

/-! ## Claims about `protocol/hashing.py`: C9, C2, C5, C8 -/

/-- The membership test `kvs.any (key = k)` agrees with `findVal`. -/
theorem any_key_eq_findVal_isSome {β : Type} (kvs : List (PyKey × β)) (k : PyKey) :
    (kvs.any fun p => decide (p.1 = k)) = (findVal kvs k).isSome := by
  induction kvs with
  | nil => rfl
  | cons p rest ih =>
    by_cases h : p.1 = k
    · simp [findVal, h]
    · simp [findVal, h, ih]

/-- C9, counterexample: a body whose `type` is a list — a non-string
value, so the claim says it must be hashed flat — instead raises
`TypeError`, because the source's membership probe
`transaction_type in write_data_types` hashes the probe against a set
and a list is unhashable. -/
theorem C9_counterexample :
    hash_transaction_body (fun _ => [7]) [(PyKey.kStr "type", PyVal.arr [])] =
      Except.error "TypeError: unhashable type: 'list'" := rfl

/-- C9, amended: a body whose `type` field is absent, a *hashable*
non-string value (None, bool, int, float, bytes, or another hashable
object), or any string other than the four payload-carrying kinds is
hashed with the flat strategy `hash_value(body)` and never rejected — in
particular a body with no `type` key at all is hashed flat; but an
*unhashable* `type` value (a list or a dict) raises `TypeError` from the
set-membership test instead of being hashed. -/
theorem C9_amended (sha256 : Bytes → Bytes) (body : PyDict)
    (h : ∀ s, s ∈ write_data_types → findVal body (PyKey.kStr "type") ≠ some (PyVal.str s)) :
    ((∀ xs, findVal body (PyKey.kStr "type") ≠ some (PyVal.arr xs)) →
      (∀ kvs, findVal body (PyKey.kStr "type") ≠ some (PyVal.obj kvs)) →
      hash_transaction_body sha256 body = Except.ok (sha256_json sha256 (.obj body))) ∧
    (∀ xs, findVal body (PyKey.kStr "type") = some (PyVal.arr xs) →
      hash_transaction_body sha256 body =
        Except.error "TypeError: unhashable type: 'list'") ∧
    (∀ kvs, findVal body (PyKey.kStr "type") = some (PyVal.obj kvs) →
      hash_transaction_body sha256 body =
        Except.error "TypeError: unhashable type: 'dict'") := by
  refine ⟨?_, ?_, ?_⟩
  · intro harr hobj
    unfold hash_transaction_body
    rcases hfind : findVal body (PyKey.kStr "type") with _ | v
    · simp [write_data_types]
    · cases v with
      | str ty =>
        have hne : ty ∉ write_data_types := fun hmem => h ty hmem hfind
        have hc : write_data_types.contains ty = false := by
          simpa using hne
        simp only [Option.getD_some]
        rw [hc]
        simp
      | null => rfl
      | bool b => rfl
      | int n => rfl
      | float r => rfl
      | bytes bs => rfl
      | arr xs => exact absurd hfind (harr xs)
      | obj kvs => exact absurd hfind (hobj kvs)
      | other s => rfl
  · intro xs hfind
    unfold hash_transaction_body
    rw [hfind]
    rfl
  · intro kvs hfind
    unfold hash_transaction_body
    rw [hfind]
    rfl

/-- C9, witness: a body with no `type` key at all is hashed flat, and a
list-valued `type` raises. -/
theorem C9_amended_witness :
    hash_transaction_body (fun _ => [7]) [(PyKey.kStr "x", PyVal.int 1)] =
      Except.ok (sha256_json (fun _ => [7]) (.obj [(PyKey.kStr "x", PyVal.int 1)])) ∧
    hash_transaction_body (fun _ => [7]) [(PyKey.kStr "type", PyVal.arr [PyVal.int 1])] =
      Except.error "TypeError: unhashable type: 'list'" :=
  ⟨(C9_amended (fun _ => [7]) [(PyKey.kStr "x", PyVal.int 1)]
      (by intro s _ hfind; simp [findVal] at hfind)).1
    (by intro xs hfind; simp [findVal] at hfind)
    (by intro kvs hfind; simp [findVal] at hfind),
   (C9_amended (fun _ => [7]) [(PyKey.kStr "type", PyVal.arr [PyVal.int 1])]
      (by intro s _ hfind; simp [findVal] at hfind)).2.1 [PyVal.int 1] rfl⟩

/-- C2: for a body whose `type` is one of the four payload-carrying
kinds — a missing `entry` key fails naming the entry; an `entry` map
without a `data` field fails naming the entry data; an `entry` map with
`data` hashes as `sha256(hash_value(body without entry) ++
hash_value(entry))`. -/
theorem C2_payload_separation (sha256 : Bytes → Bytes) (body : PyDict) (ty : String)
    (hty : ty ∈ write_data_types)
    (hfind : findVal body (PyKey.kStr "type") = some (PyVal.str ty)) :
    (findVal body (PyKey.kStr "entry") = none →
      hash_transaction_body sha256 body = .error ("invalid " ++ ty ++ ": missing entry")) ∧
    (∀ ekvs, findVal body (PyKey.kStr "entry") = some (PyVal.obj ekvs) →
      (findVal ekvs (PyKey.kStr "data") = none →
        hash_transaction_body sha256 body =
          .error ("invalid " ++ ty ++ ": missing entry data")) ∧
      (∀ dv, findVal ekvs (PyKey.kStr "data") = some dv →
        hash_transaction_body sha256 body =
          .ok (sha256 (sha256_json sha256 (.obj (eraseKey body (PyKey.kStr "entry"))) ++
            sha256_json sha256 (.obj ekvs))))) := by
  have hcont : write_data_types.contains ty = true := by simpa using hty
  constructor
  · intro hnone
    unfold hash_transaction_body
    simp [hfind, hcont, hnone, hty]
  · intro ekvs hentry
    constructor
    · intro hdata
      unfold hash_transaction_body
      rcases ekvs with _ | ⟨p, rest⟩
      · simp [hfind, hcont, hentry, pyTruthy, hty]
      · have hany : ((p :: rest).any fun q => decide (q.1 = PyKey.kStr "data")) = false := by
          rw [any_key_eq_findVal_isSome, hdata]
          rfl
        simp [hfind, hcont, hentry, pyTruthy, pyContainsStr, hany, hty]
    · intro dv hdata
      unfold hash_transaction_body
      rcases ekvs with _ | ⟨p, rest⟩
      · simp [findVal] at hdata
      · have hany : ((p :: rest).any fun q => decide (q.1 = PyKey.kStr "data")) = true := by
          rw [any_key_eq_findVal_isSome, hdata]
          rfl
        simp [hfind, hcont, hentry, pyTruthy, pyContainsStr, hany, hty]

/-- C2, witness at the spec's own example body
`{"type":"WriteData","entry":{"data":"AA=="}}` (and the entry-less body
for the error case). -/
theorem C2_payload_separation_witness :
    hash_transaction_body (fun _ => [7])
        [(PyKey.kStr "type", PyVal.str "WriteData"),
         (PyKey.kStr "entry", PyVal.obj [(PyKey.kStr "data", PyVal.str "AA==")])] =
      Except.ok ((fun _ => ([7] : Bytes))
        (sha256_json (fun _ => [7]) (.obj (eraseKey
          [(PyKey.kStr "type", PyVal.str "WriteData"),
           (PyKey.kStr "entry", PyVal.obj [(PyKey.kStr "data", PyVal.str "AA==")])]
          (PyKey.kStr "entry"))) ++
          sha256_json (fun _ => [7]) (.obj [(PyKey.kStr "data", PyVal.str "AA==")]))) ∧
    hash_transaction_body (fun _ => [7]) [(PyKey.kStr "type", PyVal.str "WriteData")] =
      .error "invalid WriteData: missing entry" := by
  constructor
  · exact ((C2_payload_separation (fun _ => [7])
      [(PyKey.kStr "type", PyVal.str "WriteData"),
       (PyKey.kStr "entry", PyVal.obj [(PyKey.kStr "data", PyVal.str "AA==")])]
      "WriteData" (by decide) rfl).2
      [(PyKey.kStr "data", PyVal.str "AA==")] rfl).2 (PyVal.str "AA==") rfl
  · exact (C2_payload_separation (fun _ => [7])
      [(PyKey.kStr "type", PyVal.str "WriteData")]
      "WriteData" (by decide) rfl).1 rfl

/-- C5: for a transaction containing `header` and `body`,
`hash_for_ed25519_signing(meta, tx)` is
`sha256(hash_value(meta) ++ hash_transaction(tx))`, with
`hash_transaction` the flat whole-object hash. -/
theorem C5_signing_hash_composition (sha256 : Bytes → Bytes) (meta tx : PyDict)
    (hh : (findVal tx (PyKey.kStr "header")).isSome)
    (hb : (findVal tx (PyKey.kStr "body")).isSome) :
    hash_transaction sha256 tx = Except.ok (sha256_json sha256 (.obj tx)) ∧
    hash_for_ed25519_signing sha256 meta tx =
      Except.ok (sha256 (sha256_json sha256 (.obj meta) ++ sha256_json sha256 (.obj tx))) := by
  have htx : hash_transaction sha256 tx = Except.ok (sha256_json sha256 (.obj tx)) := by
    rcases hfh : findVal tx (PyKey.kStr "header") with _ | v₁
    · rw [hfh] at hh
      simp at hh
    · rcases hfb : findVal tx (PyKey.kStr "body") with _ | v₂
      · rw [hfb] at hb
        simp at hb
      · unfold hash_transaction
        rw [hfh, hfb]
        rfl
  refine ⟨htx, ?_⟩
  unfold hash_for_ed25519_signing
  rw [htx]
  rfl

theorem heapGet_alloc_old (h : DictHeap) (d : PyDict) (b : Nat) (hb : b < h.cells.length) :
    heapGet ⟨h.cells ++ [d]⟩ b = heapGet h b := by
  unfold heapGet
  rw [List.getD_eq_getElem?_getD, List.getD_eq_getElem?_getD, List.getElem?_append_left hb]

theorem heapGet_alloc_new (h : DictHeap) (d : PyDict) :
    heapGet ⟨h.cells ++ [d]⟩ h.cells.length = d := by
  unfold heapGet
  rw [List.getD_eq_getElem?_getD, List.getElem?_concat_length]
  rfl

theorem heapGet_set_ne (h : DictHeap) (i b : Nat) (d : PyDict) (hne : i ≠ b) :
    heapGet (heapSet h i d) b = heapGet h b := by
  unfold heapGet heapSet
  rw [List.getD_eq_getElem?_getD, List.getD_eq_getElem?_getD, List.getElem?_set_ne hne]

theorem heapGet_set_self (h : DictHeap) (i : Nat) (d : PyDict) (hi : i < h.cells.length) :
    heapGet (heapSet h i d) i = d := by
  unfold heapGet heapSet
  rw [List.getD_eq_getElem?_getD, List.getElem?_set_self hi]
  rfl

/-- C8: `hash_transaction_body` never mutates its argument — with dict
mutation made explicit on a heap, the caller's `body` cell is unchanged
whatever the outcome (the `del` hits only the fresh copy), the returned
result agrees with the pure function, and in particular the original
`entry` key is still present afterwards whenever it was before. -/
theorem C8_no_mutation (sha256 : Bytes → Bytes) (h : DictHeap) (a : Nat)
    (ha : a < h.cells.length) :
    heapGet ((hash_transaction_body_heap sha256 h a).2) a = heapGet h a ∧
    (hash_transaction_body_heap sha256 h a).1 = hash_transaction_body sha256 (heapGet h a) ∧
    ((findVal (heapGet h a) (PyKey.kStr "entry")).isSome →
      (findVal (heapGet ((hash_transaction_body_heap sha256 h a).2) a)
        (PyKey.kStr "entry")).isSome) := by
  have hlen : h.cells.length < (h.cells ++ [heapGet h a]).length := by
    simp
  unfold hash_transaction_body_heap hash_transaction_body heapAlloc
  dsimp only
  rcases hfind : findVal (heapGet h a) (PyKey.kStr "type") with _ | v
  · exact ⟨rfl, rfl, fun hs => hs⟩
  · cases v with
    | str ty =>
      simp only [Option.getD_some]
      by_cases hc : write_data_types.contains ty = true
      · rw [hc]
        simp only [if_true]
        rcases hentry : findVal (heapGet h a) (PyKey.kStr "entry") with _ | entry
        · exact ⟨rfl, rfl, fun hs => by simp at hs⟩
        · simp only []
          rcases ht : pyTruthy entry with _ | _
          · refine ⟨rfl, rfl, fun _ => ?_⟩
            show (findVal (heapGet h a) (PyKey.kStr "entry")).isSome = true
            rw [hentry]
            rfl
          · rcases hpc : pyContainsStr entry "data" with e | bres
            · refine ⟨rfl, rfl, fun _ => ?_⟩
              show (findVal (heapGet h a) (PyKey.kStr "entry")).isSome = true
              rw [hentry]
              rfl
            · rcases bres with _ | _
              · refine ⟨rfl, rfl, fun _ => ?_⟩
                show (findVal (heapGet h a) (PyKey.kStr "entry")).isSome = true
                rw [hentry]
                rfl
              · refine ⟨?_, ?_, fun _ => ?_⟩
                · show heapGet (heapSet ⟨h.cells ++ [heapGet h a]⟩ h.cells.length
                    (eraseKey (heapGet ⟨h.cells ++ [heapGet h a]⟩ h.cells.length)
                      (PyKey.kStr "entry"))) a = heapGet h a
                  rw [heapGet_set_ne _ _ _ _ (Nat.ne_of_gt ha), heapGet_alloc_old _ _ _ ha]
                · simp only [heapGet_set_self _ _ _ hlen, heapGet_alloc_new]
                  rfl
                · show (findVal (heapGet (heapSet ⟨h.cells ++ [heapGet h a]⟩ h.cells.length
                    (eraseKey (heapGet ⟨h.cells ++ [heapGet h a]⟩ h.cells.length)
                      (PyKey.kStr "entry"))) a) (PyKey.kStr "entry")).isSome = true
                  rw [heapGet_set_ne _ _ _ _ (Nat.ne_of_gt ha), heapGet_alloc_old _ _ _ ha,
                    hentry]
                  rfl
      · rw [Bool.not_eq_true] at hc
        rw [hc]
        exact ⟨rfl, rfl, fun hs => hs⟩
    | null => exact ⟨rfl, rfl, fun hs => hs⟩
    | bool b => exact ⟨rfl, rfl, fun hs => hs⟩
    | int n => exact ⟨rfl, rfl, fun hs => hs⟩
    | float r => exact ⟨rfl, rfl, fun hs => hs⟩
    | bytes bs => exact ⟨rfl, rfl, fun hs => hs⟩
    | arr xs => exact ⟨rfl, rfl, fun hs => hs⟩
    | obj kvs => exact ⟨rfl, rfl, fun hs => hs⟩
    | other s => exact ⟨rfl, rfl, fun hs => hs⟩

/-- C8, witness at a one-cell heap holding a WriteData body with entry. -/
theorem C8_no_mutation_witness :
    heapGet ((hash_transaction_body_heap (fun _ => [7])
        ⟨[[(PyKey.kStr "type", PyVal.str "WriteData"),
           (PyKey.kStr "entry", PyVal.obj [(PyKey.kStr "data", PyVal.str "AA==")])]]⟩ 0).2) 0 =
      heapGet ⟨[[(PyKey.kStr "type", PyVal.str "WriteData"),
           (PyKey.kStr "entry", PyVal.obj [(PyKey.kStr "data", PyVal.str "AA==")])]]⟩ 0 :=
  (C8_no_mutation (fun _ => [7])
    ⟨[[(PyKey.kStr "type", PyVal.str "WriteData"),
       (PyKey.kStr "entry", PyVal.obj [(PyKey.kStr "data", PyVal.str "AA==")])]]⟩ 0
    (by decide)).1

/-- C5, witness at a minimal transaction with `header` and `body`. -/
theorem C5_signing_hash_composition_witness :
    hash_for_ed25519_signing (fun _ => [7]) []
        [(PyKey.kStr "header", PyVal.obj []), (PyKey.kStr "body", PyVal.obj [])] =
      Except.ok ((fun _ => ([7] : Bytes))
        (sha256_json (fun _ => [7]) (.obj []) ++ sha256_json (fun _ => [7])
          (.obj [(PyKey.kStr "header", PyVal.obj []), (PyKey.kStr "body", PyVal.obj [])]))) :=
  (C5_signing_hash_composition (fun _ => [7]) []
    [(PyKey.kStr "header", PyVal.obj []), (PyKey.kStr "body", PyVal.obj [])]
    (by rfl) (by rfl)).2

/-! ## Claims about `crypto/ed25519.py`: C6, C7 -/

theorem bytesToHex_length (bs : Bytes) : (bytesToHex bs).length = 2 * bs.length := by
  induction bs with
  | nil => rfl
  | cons b rest ih =>
    show (((b :: rest).map fun x => [hexDigit (x / 16), hexDigit (x % 16)]).flatten).length = _
    rw [List.map_cons, List.flatten_cons]
    have ih' : ((rest.map fun x => [hexDigit (x / 16), hexDigit (x % 16)]).flatten).length =
        2 * rest.length := ih
    simp only [List.length_append, List.length_cons, List.length_nil, ih']
    omega

theorem hexDigit_isHex (n : Nat) (hn : n < 16) : isHexChar (hexDigit n) = true := by
  have hx : ∀ m, m < 16 → isHexChar (hexDigit m) = true := by decide
  exact hx n hn

theorem bytesToHex_all_hex (bs : Bytes) (hb : ∀ x ∈ bs, x < 256) :
    ∀ c ∈ (bytesToHex bs).toList, isHexChar c = true := by
  induction bs with
  | nil => intro c hc; cases hc
  | cons b rest ih =>
    intro c hc
    have hb0 : b < 256 := hb b (List.mem_cons_self b rest)
    have hc' : c ∈ [hexDigit (b / 16), hexDigit (b % 16)] ++
        ((rest.map fun x => [hexDigit (x / 16), hexDigit (x % 16)]).flatten) := hc
    rcases List.mem_append.mp hc' with h1 | h2
    · rcases List.mem_cons.mp h1 with rfl | h1'
      · exact hexDigit_isHex _ (by omega)
      · rcases List.mem_cons.mp h1' with rfl | h1''
        · exact hexDigit_isHex _ (by omega)
        · cases h1''
    · exact ih (fun x hx => hb x (List.mem_cons_of_mem b hx)) c h2

/-- C6: `derive_lite_identity_url` is `"acc://" ++ hexKey ++ checksumHex`
where `hexKey` is the hex of the first 20 bytes of `sha256(publicKey)`
and `checksumHex` the hex of the last 4 bytes of `sha256(utf8(hexKey))`
(checksum over the hex *string*); the part after the scheme is exactly
40 + 8 = 48 lowercase hex characters, and
`derive_lite_token_account_url` appends `"/ACME"`. -/
theorem C6_lite_urls (sha256 : Bytes → Bytes) (kp : Ed25519KeyPair)
    (hlen : ∀ bs, (sha256 bs).length = 32)
    (hbyte : ∀ bs, ∀ x ∈ sha256 bs, x < 256) :
    derive_lite_identity_url sha256 kp =
      "acc://" ++ bytesToHex ((sha256 (public_key_bytes kp)).take 20) ++
        bytesToHex ((sha256 (utf8Bytes
          (bytesToHex ((sha256 (public_key_bytes kp)).take 20)))).drop 28) ∧
    (bytesToHex ((sha256 (public_key_bytes kp)).take 20)).length = 40 ∧
    (bytesToHex ((sha256 (utf8Bytes
      (bytesToHex ((sha256 (public_key_bytes kp)).take 20)))).drop 28)).length = 8 ∧
    (∀ c ∈ (bytesToHex ((sha256 (public_key_bytes kp)).take 20) ++
        bytesToHex ((sha256 (utf8Bytes
          (bytesToHex ((sha256 (public_key_bytes kp)).take 20)))).drop 28)).toList,
      isHexChar c = true) ∧
    derive_lite_token_account_url sha256 kp =
      derive_lite_identity_url sha256 kp ++ "/ACME" := by
  refine ⟨rfl, ?_, ?_, ?_, rfl⟩
  · rw [bytesToHex_length, List.length_take, hlen]
    omega
  · rw [bytesToHex_length, List.length_drop, hlen]
  · intro c hc
    have hc' : c ∈ (bytesToHex ((sha256 (public_key_bytes kp)).take 20)).toList ++
        (bytesToHex ((sha256 (utf8Bytes
          (bytesToHex ((sha256 (public_key_bytes kp)).take 20)))).drop 28)).toList := hc
    rcases List.mem_append.mp hc' with h1 | h2
    · exact bytesToHex_all_hex _
        (fun x hx => hbyte _ x (List.mem_of_mem_take hx)) c h1
    · exact bytesToHex_all_hex _
        (fun x hx => hbyte _ x (List.mem_of_mem_drop hx)) c h2

/-- C6, witness with a concrete 32-byte digest function. -/
theorem C6_lite_urls_witness :
    derive_lite_token_account_url (fun _ => List.range 32) ⟨[], []⟩ =
      derive_lite_identity_url (fun _ => List.range 32) ⟨[], []⟩ ++ "/ACME" :=
  (C6_lite_urls (fun _ => List.range 32) ⟨[], []⟩
    (fun _ => List.length_range 32)
    (fun _ x hx => by
      have := List.mem_range.mp hx
      omega)).2.2.2.2

/-- C7, counterexample: a structurally malformed signature supplied as a
non-hex string makes the stateless `verify_signature` raise a
`ValueError` from `bytes.fromhex` (the decode sits before the
`try`/`except` block), instead of returning `False`. -/
theorem C7_counterexample :
    verify_signature (fun _ _ _ => false) (.bytes (List.replicate 32 0)) (.bytes [])
        (.str "zz") =
      Except.error "ValueError: non-hexadecimal number found in fromhex() arg" := rfl

/-- C7, amended: verification never raises and reports failure as the
boolean `false` *provided the signature (and, in `verify_signature`, the
public key) is supplied as raw bytes (of any length) or as a
well-formed hex string*: both entry points then return `ok` of the
underlying boolean check (so a cryptographically invalid signature
yields `false`, and `verify_signature` also yields `false` for a public
key that is not exactly 32 bytes).  A signature — or, in
`verify_signature`, a public key — supplied as a malformed hex string
raises `ValueError` from `bytes.fromhex` in either function, since the
hex decode sits before the `try` block in both. -/
theorem C7_amended (pubOf : Bytes → Bytes) (cryptoVerify : Bytes → Bytes → Bytes → Bool)
    (kp : Ed25519KeyPair) (pk : Bytes) (message : BytesOrStr) (sig : Bytes)
    (s spk sbad : String) (sigbs pkbs : Bytes) (e : String)
    (hhex : fromhex s.toList = Except.ok sigbs)
    (hpkhex : fromhex spk.toList = Except.ok pkbs)
    (hbad : fromhex sbad.toList = Except.error e) :
    (keypair_verify pubOf cryptoVerify kp message (.bytes sig) =
      Except.ok (cryptoVerify (pubOf kp.signingSeed) (msgBytes message) sig) ∧
     keypair_verify pubOf cryptoVerify kp message (.str s) =
      Except.ok (cryptoVerify (pubOf kp.signingSeed) (msgBytes message) sigbs)) ∧
    (verify_signature cryptoVerify (.bytes pk) message (.bytes sig) =
      Except.ok (if pk.length = 32 then cryptoVerify pk (msgBytes message) sig else false) ∧
     verify_signature cryptoVerify (.bytes pk) message (.str s) =
      Except.ok (if pk.length = 32 then cryptoVerify pk (msgBytes message) sigbs else false) ∧
     verify_signature cryptoVerify (.str spk) message (.bytes sig) =
      Except.ok (if pkbs.length = 32 then cryptoVerify pkbs (msgBytes message) sig else false) ∧
     verify_signature cryptoVerify (.str spk) message (.str s) =
      Except.ok (if pkbs.length = 32 then cryptoVerify pkbs (msgBytes message) sigbs
        else false)) ∧
    (keypair_verify pubOf cryptoVerify kp message (.str sbad) = Except.error e ∧
     verify_signature cryptoVerify (.bytes pk) message (.str sbad) = Except.error e ∧
     verify_signature cryptoVerify (.str sbad) message (.bytes sig) = Except.error e) := by
  refine ⟨⟨rfl, ?_⟩, ⟨rfl, ?_, ?_, ?_⟩, ?_, ?_, ?_⟩
  · unfold keypair_verify
    dsimp only
    rw [hhex]
  · unfold verify_signature decodeHexArg
    dsimp only
    rw [hhex]
  · unfold verify_signature decodeHexArg
    dsimp only
    rw [hpkhex]
  · unfold verify_signature decodeHexArg
    dsimp only
    rw [hpkhex, hhex]
  · unfold keypair_verify
    dsimp only
    rw [hbad]
  · unfold verify_signature decodeHexArg
    dsimp only
    rw [hbad]
  · unfold verify_signature decodeHexArg
    dsimp only
    rw [hbad]

/-- C7, witness for the amended theorem at the valid hex strings "00"
and the malformed hex string "zz". -/
theorem C7_amended_witness :
    keypair_verify (fun _ => []) (fun _ _ _ => false) ⟨[], []⟩ (.bytes []) (.str "00") =
      Except.ok false ∧
    keypair_verify (fun _ => []) (fun _ _ _ => false) ⟨[], []⟩ (.bytes []) (.str "zz") =
      Except.error "ValueError: non-hexadecimal number found in fromhex() arg" :=
  ⟨(C7_amended (fun _ => []) (fun _ _ _ => false) ⟨[], []⟩ [] (.bytes []) []
      "00" "00" "zz" [0] [0]
      "ValueError: non-hexadecimal number found in fromhex() arg" rfl rfl rfl).1.2,
   (C7_amended (fun _ => []) (fun _ _ _ => false) ⟨[], []⟩ [] (.bytes []) []
      "00" "00" "zz" [0] [0]
      "ValueError: non-hexadecimal number found in fromhex() arg" rfl rfl rfl).2.2.1⟩

/-! ## Claims about `canonjson.py`: C3, C10 — sorting machinery -/

theorem charsLe_total : ∀ xs ys : List Char, charsLe xs ys = true ∨ charsLe ys xs = true := by
  intro xs
  induction xs with
  | nil => intro ys; left; rfl
  | cons a as ih =>
    intro ys
    cases ys with
    | nil => right; rfl
    | cons b bs =>
      simp only [charsLe]
      rcases Nat.lt_trichotomy a.toNat b.toNat with hab | hab | hab
      · left; rw [if_pos (by omega)]
      · rcases ih bs with h | h
        · left; rw [if_neg (by omega), if_neg (by omega)]; exact h
        · right; rw [if_neg (by omega), if_neg (by omega)]; exact h
      · right; rw [if_pos (by omega)]

theorem charsLe_trans : ∀ xs ys zs : List Char,
    charsLe xs ys = true → charsLe ys zs = true → charsLe xs zs = true := by
  intro xs
  induction xs with
  | nil => intro ys zs _ _; rfl
  | cons a as ih =>
    intro ys zs h1 h2
    cases ys with
    | nil => simp [charsLe] at h1
    | cons b bs =>
      cases zs with
      | nil => simp [charsLe] at h2
      | cons c cs =>
        simp only [charsLe] at h1 h2 ⊢
        rcases Nat.lt_trichotomy a.toNat b.toNat with hab | hab | hab
        · rcases Nat.lt_trichotomy b.toNat c.toNat with hbc | hbc | hbc
          · rw [if_pos (by omega)]
          · rw [if_pos (by omega)]
          · rw [if_neg (by omega), if_pos (by omega)] at h2; cases h2
        · rw [if_neg (by omega), if_neg (by omega)] at h1
          rcases Nat.lt_trichotomy b.toNat c.toNat with hbc | hbc | hbc
          · rw [if_pos (by omega)]
          · rw [if_neg (by omega), if_neg (by omega)] at h2
            rw [if_neg (by omega), if_neg (by omega)]
            exact ih bs cs h1 h2
          · rw [if_neg (by omega), if_pos (by omega)] at h2; cases h2
        · rw [if_neg (by omega), if_pos (by omega)] at h1; cases h1

theorem charsLe_antisymm : ∀ xs ys : List Char,
    charsLe xs ys = true → charsLe ys xs = true → xs = ys := by
  intro xs
  induction xs with
  | nil =>
    intro ys _ h2
    cases ys with
    | nil => rfl
    | cons b bs => simp [charsLe] at h2
  | cons a as ih =>
    intro ys h1 h2
    cases ys with
    | nil => simp [charsLe] at h1
    | cons b bs =>
      simp only [charsLe] at h1 h2
      rcases Nat.lt_trichotomy a.toNat b.toNat with hab | hab | hab
      · rw [if_neg (by omega), if_pos (by omega)] at h2; cases h2
      · rw [if_neg (by omega), if_neg (by omega)] at h1
        rw [if_neg (by omega), if_neg (by omega)] at h2
        have hc : a = b := Char.eq_of_val_eq (UInt32.ext hab)
        rw [hc, ih bs h1 h2]
      · rw [if_neg (by omega), if_pos (by omega)] at h1; cases h1

theorem charsLt_of_le_of_ne : ∀ xs ys : List Char,
    charsLe xs ys = true → xs ≠ ys → charsLt xs ys = true := by
  intro xs
  induction xs with
  | nil =>
    intro ys _ hne
    cases ys with
    | nil => exact absurd rfl hne
    | cons b bs => rfl
  | cons a as ih =>
    intro ys h1 hne
    cases ys with
    | nil => simp [charsLe] at h1
    | cons b bs =>
      simp only [charsLe] at h1
      simp only [charsLt]
      rcases Nat.lt_trichotomy a.toNat b.toNat with hab | hab | hab
      · rw [if_pos (by omega)]
      · rw [if_neg (by omega), if_neg (by omega)] at h1 ⊢
        have hc : a = b := Char.eq_of_val_eq (UInt32.ext hab)
        refine ih bs h1 (fun he => hne ?_)
        rw [hc, he]
      · rw [if_neg (by omega), if_pos (by omega)] at h1; cases h1

instance : IsTotal PyKey keyLe :=
  ⟨fun a b => charsLe_total (pyStr a).toList (pyStr b).toList⟩

instance : IsTrans PyKey keyLe :=
  ⟨fun a b c => charsLe_trans (pyStr a).toList (pyStr b).toList (pyStr c).toList⟩

theorem pyStr_eq_of_keyLe_both {a b : PyKey} (h1 : keyLe a b) (h2 : keyLe b a) :
    pyStr a = pyStr b :=
  String.toList_inj.mp (charsLe_antisymm _ _ h1 h2)

/-- The effectively-strict order on keys used to identify the two sorted
key sequences: `keyLe` together with distinct `str()` images. -/
def keyLtS (a b : PyKey) : Prop := keyLe a b ∧ pyStr a ≠ pyStr b

instance : IsAntisymm PyKey keyLtS :=
  ⟨fun _ _ h1 h2 => absurd (pyStr_eq_of_keyLe_both h1.1 h2.1) h1.2⟩

theorem pairwise_keyLtS {l : List PyKey} (hle : l.Pairwise keyLe)
    (hnd : (l.map pyStr).Nodup) : l.Pairwise keyLtS :=
  hle.and (List.pairwise_map.mp hnd)

/-- Sorting two permuted key lists with pairwise-distinct `str()` images
gives the same sequence. -/
theorem sortedKeys_eq {keys₁ keys₂ : List PyKey} (hp : keys₁.Perm keys₂)
    (hnd : (keys₁.map pyStr).Nodup) :
    List.insertionSort keyLe keys₁ = List.insertionSort keyLe keys₂ := by
  have hperm : (List.insertionSort keyLe keys₁).Perm (List.insertionSort keyLe keys₂) :=
    (List.perm_insertionSort keyLe keys₁).trans
      (hp.trans (List.perm_insertionSort keyLe keys₂).symm)
  have hnd1 : ((List.insertionSort keyLe keys₁).map pyStr).Nodup :=
    (((List.perm_insertionSort keyLe keys₁).map pyStr).nodup_iff).mpr hnd
  have hnd2 : ((List.insertionSort keyLe keys₂).map pyStr).Nodup :=
    (((List.perm_insertionSort keyLe keys₂).map pyStr).nodup_iff).mpr
      (((hp.map pyStr).nodup_iff).mp hnd)
  exact List.eq_of_perm_of_sorted hperm
    (pairwise_keyLtS (List.sorted_insertionSort keyLe keys₁) hnd1)
    (pairwise_keyLtS (List.sorted_insertionSort keyLe keys₂) hnd2)

/-- Association lookup is invariant under permutation when keys are
unique. -/
theorem findVal_perm {β : Type} {l₁ l₂ : List (PyKey × β)} (hp : l₁.Perm l₂) :
    (l₁.map Prod.fst).Nodup → ∀ k, findVal l₁ k = findVal l₂ k := by
  induction hp with
  | nil => intro _ _; rfl
  | cons x hsub ih =>
    intro hnd k
    rw [List.map_cons] at hnd
    show (if x.1 = k then some x.2 else findVal _ k) =
      (if x.1 = k then some x.2 else findVal _ k)
    by_cases hx : x.1 = k
    · rw [if_pos hx, if_pos hx]
    · rw [if_neg hx, if_neg hx]
      exact ih hnd.of_cons k
  | swap x y l =>
    intro hnd k
    rw [List.map_cons, List.map_cons] at hnd
    have hxy : y.1 ≠ x.1 := by
      have := hnd.not_mem
      simp at this
      exact this.1
    show (if y.1 = k then some y.2 else if x.1 = k then some x.2 else findVal l k) =
      (if x.1 = k then some x.2 else if y.1 = k then some y.2 else findVal l k)
    by_cases hy : y.1 = k
    · rw [if_pos hy, if_neg (fun hx => hxy (hy.trans hx.symm)), if_pos hy]
    · rw [if_neg hy]
      by_cases hx : x.1 = k
      · rw [if_pos hx, if_pos hx]
      · rw [if_neg hx, if_neg hx, if_neg hy]
  | trans h12 h23 ih12 ih23 =>
    intro hnd k
    have hnd2 := ((h12.map Prod.fst).nodup_iff).mp hnd
    exact (ih12 hnd k).trans (ih23 hnd2 k)

/-- Assigning a fresh key to an `OrderedDict` appends it. -/
theorem odInsert_append (acc : List (String × CanonVal)) (k : String) (v : CanonVal)
    (hk : ∀ p ∈ acc, p.1 ≠ k) : odInsert acc k v = acc ++ [(k, v)] := by
  induction acc with
  | nil => rfl
  | cons p rest ih =>
    have hp : p.1 ≠ k := hk p (List.mem_cons_self p rest)
    show (if p.1 = k then (k, v) :: rest else p :: odInsert rest k v) = (p :: rest) ++ [(k, v)]
    rw [if_neg hp, ih (fun q hq => hk q (List.mem_cons_of_mem p hq))]
    rfl

/-- Folding `OrderedDict` assignment over keys with pairwise-distinct
`str()` images, all fresh for the accumulator, just appends the entries
in order. -/
theorem foldl_odInsert (f : PyKey → CanonVal) :
    ∀ (ks : List PyKey) (acc : List (String × CanonVal)),
      (∀ k ∈ ks, ∀ p ∈ acc, p.1 ≠ pyStr k) → (ks.map pyStr).Nodup →
      ks.foldl (fun acc k => odInsert acc (pyStr k) (f k)) acc =
        acc ++ ks.map (fun k => (pyStr k, f k)) := by
  intro ks
  induction ks with
  | nil => intro acc _ _; simp
  | cons k rest ih =>
    intro acc hdis hnd
    rw [List.map_cons] at hnd
    rw [List.foldl_cons,
      odInsert_append acc (pyStr k) (f k) (hdis k (List.mem_cons_self k rest))]
    rw [ih (acc ++ [(pyStr k, f k)]) ?_ hnd.of_cons]
    · simp
    · intro k' hk' p hp
      rcases List.mem_append.mp hp with h | h
      · exact hdis k' (List.mem_cons_of_mem k hk') p h
      · have hpe : p = (pyStr k, f k) := List.mem_singleton.mp h
        have hkk : pyStr k' ≠ pyStr k := by
          have hnm : pyStr k ∉ List.map pyStr rest := (List.nodup_cons.mp hnd).1
          intro he
          exact hnm (he ▸ List.mem_map_of_mem pyStr hk')
        rw [hpe]
        exact fun he => hkk he.symm

/-- With pairwise-distinct stringified keys, the dict branch of the
canonicalizer is exactly the key-sorted list of `(str(k), value)`
entries. -/
theorem canonObjPairs_eq (pairs : List (PyKey × CanonVal))
    (hnd : (pairs.map (fun p => pyStr p.1)).Nodup) :
    canonObjPairs pairs =
      (List.insertionSort keyLe (pairs.map Prod.fst)).map
        (fun k => (pyStr k, (findVal pairs k).getD CanonVal.null)) := by
  unfold canonObjPairs
  have hnd0 : ((pairs.map Prod.fst).map pyStr).Nodup := by
    rw [List.map_map]; exact hnd
  have hnds : ((List.insertionSort keyLe (pairs.map Prod.fst)).map pyStr).Nodup :=
    (((List.perm_insertionSort keyLe (pairs.map Prod.fst)).map pyStr).nodup_iff).mpr hnd0
  exact foldl_odInsert _ _ [] (fun _ _ _ hp => absurd hp (List.not_mem_nil _)) hnds

theorem canonPairs_eq_map (kvs : List (PyKey × PyVal)) :
    canonPairs kvs = kvs.map (fun p => (p.1, canonicalize p.2)) := by
  induction kvs with
  | nil => rfl
  | cons p rest ih =>
    cases p with
    | mk k v =>
      rw [List.map_cons]
      show (k, canonicalize v) :: canonPairs rest = _
      rw [ih]

/-- C3: two structurally equal maps (same key/value pairs, any input
order, string keys, no duplicate keys) canonicalize to byte-identical
output, and the emitted object keys are strictly ascending in the raw
code-point order. -/
theorem C3_canonical_key_order (kvs₁ kvs₂ : List (PyKey × PyVal))
    (hperm : kvs₁.Perm kvs₂)
    (_hstr : ∀ p ∈ kvs₁, ∃ s, p.1 = PyKey.kStr s)
    (hnd : (kvs₁.map (fun p => pyStr p.1)).Nodup) :
    dumps_canonical (.obj kvs₁) = dumps_canonical (.obj kvs₂) ∧
    (objKeys (canonicalize (.obj kvs₁))).Pairwise strLt := by
  have hnd2 : (kvs₂.map (fun p => pyStr p.1)).Nodup :=
    ((hperm.map (fun p => pyStr p.1)).nodup_iff).mp hnd
  have hpairs : (canonPairs kvs₁).Perm (canonPairs kvs₂) := by
    rw [canonPairs_eq_map, canonPairs_eq_map]
    exact hperm.map _
  have hfst1 : (canonPairs kvs₁).map Prod.fst = kvs₁.map Prod.fst := by
    rw [canonPairs_eq_map, List.map_map]
    rfl
  have hfst2 : (canonPairs kvs₂).map Prod.fst = kvs₂.map Prod.fst := by
    rw [canonPairs_eq_map, List.map_map]
    rfl
  have hndp1 : ((canonPairs kvs₁).map (fun p => pyStr p.1)).Nodup := by
    rw [canonPairs_eq_map, List.map_map]
    exact hnd
  have hndp2 : ((canonPairs kvs₂).map (fun p => pyStr p.1)).Nodup := by
    rw [canonPairs_eq_map, List.map_map]
    exact hnd2
  have hndkeys : ((kvs₁.map Prod.fst).map pyStr).Nodup := by
    rw [List.map_map]
    exact hnd
  have hsorted : List.insertionSort keyLe (kvs₁.map Prod.fst) =
      List.insertionSort keyLe (kvs₂.map Prod.fst) :=
    sortedKeys_eq (hperm.map Prod.fst) hndkeys
  have hfind : ∀ k, findVal (canonPairs kvs₁) k = findVal (canonPairs kvs₂) k :=
    findVal_perm hpairs (List.Nodup.of_map pyStr (hfst1 ▸ hndkeys))
  have hobj : canonObjPairs (canonPairs kvs₁) = canonObjPairs (canonPairs kvs₂) := by
    rw [canonObjPairs_eq _ hndp1, canonObjPairs_eq _ hndp2, hfst1, hfst2, ← hsorted]
    exact List.map_congr_left (fun k _ => by rw [hfind k])
  refine ⟨?_, ?_⟩
  · show render (CanonVal.obj (canonObjPairs (canonPairs kvs₁))) =
      render (CanonVal.obj (canonObjPairs (canonPairs kvs₂)))
    rw [hobj]
  · show (List.map Prod.fst (canonObjPairs (canonPairs kvs₁))).Pairwise strLt
    rw [canonObjPairs_eq _ hndp1, List.map_map, hfst1]
    have hsortnd : ((List.insertionSort keyLe (kvs₁.map Prod.fst)).map pyStr).Nodup :=
      (((List.perm_insertionSort keyLe (kvs₁.map Prod.fst)).map pyStr).nodup_iff).mpr hndkeys
    have hpw : (List.insertionSort keyLe (kvs₁.map Prod.fst)).Pairwise keyLtS :=
      pairwise_keyLtS (List.sorted_insertionSort keyLe (kvs₁.map Prod.fst)) hsortnd
    have : (List.insertionSort keyLe (kvs₁.map Prod.fst)).Pairwise
        (fun a b => strLt (pyStr a) (pyStr b)) := by
      refine hpw.imp ?_
      intro a b hab
      exact charsLt_of_le_of_ne _ _ hab.1 (fun he => hab.2 (String.toList_inj.mp he))
    exact List.pairwise_map.mpr this

/-- C3, witness: the spec's own key-order example `{"z":3,"a":1,"m":2}`
in two input orders. -/
theorem C3_canonical_key_order_witness :
    dumps_canonical (.obj [(PyKey.kStr "z", PyVal.int 3), (PyKey.kStr "a", PyVal.int 1),
        (PyKey.kStr "m", PyVal.int 2)]) =
      dumps_canonical (.obj [(PyKey.kStr "a", PyVal.int 1), (PyKey.kStr "z", PyVal.int 3),
        (PyKey.kStr "m", PyVal.int 2)]) :=
  (C3_canonical_key_order
    [(PyKey.kStr "z", PyVal.int 3), (PyKey.kStr "a", PyVal.int 1), (PyKey.kStr "m", PyVal.int 2)]
    [(PyKey.kStr "a", PyVal.int 1), (PyKey.kStr "z", PyVal.int 3), (PyKey.kStr "m", PyVal.int 2)]
    (List.Perm.swap _ _ _)
    (by
      intro p hp
      rcases hp with _ | ⟨_, (_ | ⟨_, (_ | ⟨_, h⟩)⟩)⟩
      · exact ⟨"z", rfl⟩
      · exact ⟨"a", rfl⟩
      · exact ⟨"m", rfl⟩
      · cases h)
    (by decide)).1

/-- C10: `dumps_canonical` accepts non-string dict keys, stringifying
them for both sorting and emission: a map with integer key `1` encodes
identically to one with string key `"1"`, and in general the emitted key
sequence is the sorted (`key=str`) stringification of the input keys. -/
theorem C10_nonstring_keys :
    (∀ v : PyVal, dumps_canonical (.obj [(PyKey.kInt 1, v)]) =
      dumps_canonical (.obj [(PyKey.kStr "1", v)])) ∧
    (∀ kvs : List (PyKey × PyVal), (kvs.map (fun p => pyStr p.1)).Nodup →
      objKeys (canonicalize (.obj kvs)) =
        (List.insertionSort keyLe (kvs.map Prod.fst)).map pyStr) := by
  constructor
  · intro v
    rfl
  · intro kvs hnd
    have hndp : ((canonPairs kvs).map (fun p => pyStr p.1)).Nodup := by
      rw [canonPairs_eq_map, List.map_map]
      exact hnd
    have hfst : (canonPairs kvs).map Prod.fst = kvs.map Prod.fst := by
      rw [canonPairs_eq_map, List.map_map]
      rfl
    show (List.map Prod.fst (canonObjPairs (canonPairs kvs))) = _
    rw [canonObjPairs_eq _ hndp, List.map_map, hfst]
    rfl

/-- C10, witness: integer key `1` and string key `"1"` give the same
encoding, and the sorted-key description holds on a concrete mixed-key
map. -/
theorem C10_nonstring_keys_witness :
    dumps_canonical (.obj [(PyKey.kInt 1, PyVal.null)]) =
      dumps_canonical (.obj [(PyKey.kStr "1", PyVal.null)]) ∧
    objKeys (canonicalize (.obj [(PyKey.kInt 10, PyVal.null), (PyKey.kInt 2, PyVal.null)])) =
      (List.insertionSort keyLe ([(PyKey.kInt 10, PyVal.null),
        (PyKey.kInt 2, PyVal.null)].map Prod.fst)).map pyStr :=
  ⟨C10_nonstring_keys.1 PyVal.null,
   C10_nonstring_keys.2 [(PyKey.kInt 10, PyVal.null), (PyKey.kInt 2, PyVal.null)] (by decide)⟩

end AccumulateSDK
